import Mathlib

/-!
Verification development for the Markdown <-> Notion-block codec of this
repository (file `src/markdown.ts`): the Span Codec (`richTextToMarkdown`,
`parseInlineMarkdown`), the Line Classifier and Decode Engine
(`markdownToBlocks`, `mapLanguage`) and the Encode Engine
(`blockToMarkdown` / `blocksToMarkdown`).

Conventions of the embedding:
* Machine strings are Lean `String` (a structure over `List Char`); the
  JavaScript regular expressions of the source are translated into explicit
  priority-ordered matcher functions with the same backtracking semantics,
  matcher by matcher.
* `String.split("\n")` / `join("\n")` of the source are modelled by the
  executable `splitChar` / `joinLines` below, which agree with the
  JavaScript semantics ("" splits to [""], etc.).
* The asynchronous children fetch (`collectAllBlocks(block.id)`) is the
  abstract ordered-children provider of the spec; it is modelled by storing
  the list the provider would return in the `children` field of a `Block`.
  `has_children` stays a separate field, exactly as in the API objects.
* The scanners use explicit fuel where the source uses a cursor loop; every
  loop iteration of the source consumes at least one character (or line), so
  fuel equal to the input length makes the Lean function agree with the
  source loop on every input.
-/

/-- The annotation set carried by one rich text run (`item.annotations`). -/
structure Annotations where
  bold : Bool
  italic : Bool
  strikethrough : Bool
  code : Bool
deriving DecidableEq, Repr

/-- All annotations off: the default annotation set of a freshly decoded run. -/
def noAnn : Annotations := ⟨false, false, false, false⟩

def boldAnn : Annotations := ⟨true, false, false, false⟩

def italicAnn : Annotations := ⟨false, true, false, false⟩

def codeAnn : Annotations := ⟨false, false, false, true⟩

def strikeAnn : Annotations := ⟨false, false, true, false⟩

def allAnn : Annotations := ⟨true, true, true, true⟩

/-- One rich text run (`RichTextItemResponse` on the encode side,
`RichTextInput` on the decode side; for a literal run the API keeps
`plain_text` equal to `text.content`, so one `content` field serves both).
`mentionOther` stands for user/date mentions, which fall through to their
plain text in `richTextToMarkdown`. -/
inductive RichTextItem where
  | text (content : String) (link : Option String) (ann : Annotations)
  | mentionPage (id : String)
  | mentionDatabase (id : String)
  | mentionOther (plainText : String) (ann : Annotations)
deriving DecidableEq, Repr

/-- The characters written as escapes so that no brace or backtick appears
raw in the file. -/
def lbrace : Char := Char.ofNat 123

def rbrace : Char := Char.ofNat 125

def btick : Char := Char.ofNat 96

/-- `"  ".repeat(indent)` of the source. -/
def strRepeat (s : String) (n : Nat) : String :=
  String.join (List.replicate n s)

/-- JavaScript `trim()`: strip whitespace from both ends (on the character
level, so that every definition below evaluates by kernel reduction). -/
def trimChars (l : List Char) : List Char :=
  ((l.dropWhile Char.isWhitespace).reverse.dropWhile Char.isWhitespace).reverse

def strTrim (s : String) : String :=
  String.mk (trimChars s.data)

/-- `s.startsWith(p)` on the character level. -/
def strStartsWith (s p : String) : Bool :=
  p.data.isPrefixOf s.data

/-- `s.toLowerCase()` on the character level. -/
def strToLower (s : String) : String :=
  String.mk (s.data.map Char.toLower)

/-- `parts.join(sep)` of JavaScript: empty list gives "", otherwise the
parts interleaved with the separator. -/
def joinLines (sep : String) : List String → String
  | [] => ""
  | [x] => x
  | x :: xs => x ++ sep ++ joinLines sep xs

/-- `s.split(c)` of JavaScript on the character level: always at least one
group, a separator at the end yields a trailing empty group. -/
def splitChar (c : Char) : List Char → List (List Char)
  | [] => [[]]
  | a :: rest =>
    match splitChar c rest with
    | [] => [[a]]
    | g :: gs => if a = c then [] :: g :: gs else (a :: g) :: gs

/-- `text = annotations applied innermost-to-outermost`: the source mutates
`text` through four `if` statements, code first, then bold, italic,
strikethrough. -/
def applyAnnotations (ann : Annotations) (text : String) : String :=
  let t1 := if ann.code then "`" ++ text ++ "`" else text
  let t2 := if ann.bold then "**" ++ t1 ++ "**" else t1
  let t3 := if ann.italic then "*" ++ t2 ++ "*" else t2
  if ann.strikethrough then "~~" ++ t3 ++ "~~" else t3

/-- The body of the `richText.map(...)` callback of `richTextToMarkdown`. -/
def richTextItemToMarkdown : RichTextItem → String
  | .mentionPage id => "\x7b\x7bpage:" ++ id ++ "\x7d\x7d"
  | .mentionDatabase id => "\x7b\x7bdatabase:" ++ id ++ "\x7d\x7d"
  | .mentionOther plainText ann =>
    if plainText = "" then "" else applyAnnotations ann plainText
  | .text content link ann =>
    if content = "" then ""
    else
      let t := applyAnnotations ann content
      match link with
      | some url => "[" ++ t ++ "](" ++ url ++ ")"
      | none => t

/-- `richTextToMarkdown`: map each run and concatenate (`join("")`). -/
def richTextToMarkdown (richText : List RichTextItem) : String :=
  joinLines "" (richText.map richTextItemToMarkdown)

/-- Split a list at the first occurrence of `stop`: the semantics of the
greedy character class `[^X]+` (or `[^X]*`) followed by the literal `X` —
the matched part cannot cross an `X`, so the match always ends at the first
one.  Returns the part before the first `stop` and the part after it;
`none` when `stop` does not occur. -/
def takeUntilChar (stop : Char) : List Char → Option (List Char × List Char)
  | [] => none
  | c :: cs =>
    if c = stop then some ([], cs)
    else
      match takeUntilChar stop cs with
      | some (pre, post) => some (c :: pre, post)
      | none => none

/-- The semantics of the lazy group `(.+?)` followed by the literal `close`:
the shortest nonempty newline-free content after which `close` matches.
Returns the content and the input after the closing marker. -/
def findClose (close : List Char) : List Char → Option (List Char × List Char)
  | [] => none
  | c :: cs =>
    if c = '\n' then none
    else if close.isPrefixOf cs then some ([c], cs.drop close.length)
    else
      match findClose close cs with
      | some (content, rest) => some (c :: content, rest)
      | none => none

/-- Alternative 1 of the inline regex: a mention placeholder
`{{page:ID}}` / `{{database:ID}}` (the keyword alternation is tried in
that order, and the `[^}]+` id must be nonempty and stop at the first
closing brace, which must be doubled). -/
def mentionTail (isPage : Bool) (r : List Char) : Option (RichTextItem × List Char) :=
  match takeUntilChar rbrace r with
  | some (idChars, r2) =>
    if idChars.isEmpty then none
    else
      match r2 with
      | c3 :: r3 =>
        if c3 = rbrace then
          some
            ((if isPage then .mentionPage (strTrim (String.mk idChars))
              else .mentionDatabase (strTrim (String.mk idChars))), r3)
        else none
      | [] => none
  | none => none

def tryMention (c : Char) (cs : List Char) : Option (RichTextItem × List Char) :=
  if c = lbrace then
    match cs with
    | c2 :: r =>
      if c2 = lbrace then
        if ("page:".data).isPrefixOf r then mentionTail true (r.drop 5)
        else if ("database:".data).isPrefixOf r then mentionTail false (r.drop 9)
        else none
      else none
    | [] => none
  else none

/-- Alternative 2: a hyperlink `[text](url)`, text `[^\]]+`, url `[^)]+`. -/
def tryLink (c : Char) (cs : List Char) : Option (RichTextItem × List Char) :=
  if c = '[' then
    match takeUntilChar ']' cs with
    | some (content, r1) =>
      if content.isEmpty then none
      else
        match r1 with
        | '(' :: r2 =>
          match takeUntilChar ')' r2 with
          | some (url, r3) =>
            if url.isEmpty then none
            else some (.text (String.mk content) (some (String.mk url)) noAnn, r3)
          | none => none
        | _ => none
    | none => none
  else none

/-- Alternative 3: bold `**text**` with a lazy body. -/
def tryBold (c : Char) (cs : List Char) : Option (RichTextItem × List Char) :=
  if c = '*' then
    match cs with
    | c2 :: r =>
      if c2 = '*' then
        match findClose ['*', '*'] r with
        | some (content, rest) => some (.text (String.mk content) none boldAnn, rest)
        | none => none
      else none
    | [] => none
  else none

/-- Alternative 4: italic `*text*` with a lazy body. -/
def tryItalic (c : Char) (cs : List Char) : Option (RichTextItem × List Char) :=
  if c = '*' then
    match findClose ['*'] cs with
    | some (content, rest) => some (.text (String.mk content) none italicAnn, rest)
    | none => none
  else none

/-- Alternative 5: inline code with a lazy body. -/
def tryCode (c : Char) (cs : List Char) : Option (RichTextItem × List Char) :=
  if c = btick then
    match findClose [btick] cs with
    | some (content, rest) => some (.text (String.mk content) none codeAnn, rest)
    | none => none
  else none

/-- Alternative 6: strikethrough `~~text~~` with a lazy body. -/
def tryStrike (c : Char) (cs : List Char) : Option (RichTextItem × List Char) :=
  if c = '~' then
    match cs with
    | c2 :: r =>
      if c2 = '~' then
        match findClose ['~', '~'] r with
        | some (content, rest) => some (.text (String.mk content) none strikeAnn, rest)
        | none => none
      else none
    | [] => none
  else none

/-- Membership in the character class of the last alternative
`[{*`~[]+` (equivalently, the complement of the plain-text class). -/
def isSpecialChar (c : Char) : Bool :=
  c = '[' || c = lbrace || c = '*' || c = btick || c = '~'

/-- One step of the inline tokenizer: the regex alternation tried at the
current position in priority order; the final two run alternatives make it
total, and every token consumes at least one character. -/
def matchToken (c : Char) (cs : List Char) : RichTextItem × List Char :=
  match tryMention c cs with
  | some r => r
  | none =>
    match tryLink c cs with
    | some r => r
    | none =>
      match tryBold c cs with
      | some r => r
      | none =>
        match tryItalic c cs with
        | some r => r
        | none =>
          match tryCode c cs with
          | some r => r
          | none =>
            match tryStrike c cs with
            | some r => r
            | none =>
              if isSpecialChar c then
                (.text (String.mk (c :: cs.takeWhile isSpecialChar)) none noAnn,
                  cs.dropWhile isSpecialChar)
              else
                (.text (String.mk (c :: cs.takeWhile (fun x => !(isSpecialChar x)))) none noAnn,
                  cs.dropWhile (fun x => !(isSpecialChar x)))

/-- The `while ((match = regex.exec(text)) !== null)` loop: repeated
tokenization from the current position.  Each token consumes at least one
character, so fuel equal to the input length never runs out. -/
def scanAux : Nat → List Char → List RichTextItem
  | _, [] => []
  | 0, _ :: _ => []
  | n + 1, c :: cs =>
    let (item, rest) := matchToken c cs
    item :: scanAux n rest

/-- `parseInlineMarkdown`, including the defensive zero-token fallback of
the source (one literal run over the whole input). -/
def parseInlineMarkdown (text : String) : List RichTextItem :=
  let items := scanAux text.data.length text.data
  if items.isEmpty && decide (0 < text.length) then [.text text none noAnn]
  else items

/-- The discriminant plus type-specific payload of one Content Block.  The
constructors mirror the cases of `blockToMarkdown` and the descriptors built
by `markdownToBlocks`; `video`/`file`/`pdf`/`image` store the url the source
extracts from the external/file union. -/
inductive BlockData where
  | paragraph (richText : List RichTextItem)
  | heading1 (richText : List RichTextItem)
  | heading2 (richText : List RichTextItem)
  | heading3 (richText : List RichTextItem)
  | bulletedListItem (richText : List RichTextItem)
  | numberedListItem (richText : List RichTextItem)
  | toDo (checked : Bool) (richText : List RichTextItem)
  | toggle (richText : List RichTextItem)
  | code (language : String) (richText : List RichTextItem)
  | quote (richText : List RichTextItem)
  | callout (icon : Option String) (richText : List RichTextItem)
  | divider
  | image (url : String) (caption : List RichTextItem)
  | bookmark (url : String) (caption : List RichTextItem)
  | table
  | tableRow (cells : List (List RichTextItem))
  | childPage (title : String)
  | childDatabase (title : String)
  | embed (url : String)
  | video (url : String)
  | file (url : String) (caption : List RichTextItem)
  | pdf (url : String)
  | equation (expression : String)
  | tableOfContents
  | breadcrumb
  | columnList
  | column
  | unsupported (typeName : String)

/- One Content Block: identifier, `has_children` flag, discriminant with
payload, and the ordered children the external provider
(`collectAllBlocks(block.id)`) returns for its identifier.  Decoded block
descriptors carry `""`/`false`/no children since they do not yet exist in
the store.  `Blocks` is the ordered child list, kept as a mutual inductive
so the tree walk of the Encode Engine is plain structural recursion. -/
mutual
/-- One Content Block (see the comment above this mutual group). -/
inductive Block where
  | mk (id : String) (hasChildren : Bool) (data : BlockData) (children : Blocks)
inductive Blocks where
  | nil
  | cons (hd : Block) (tl : Blocks)
end

def Block.id : Block → String
  | .mk i _ _ _ => i

def Block.hasChildren : Block → Bool
  | .mk _ h _ _ => h

def Block.data : Block → BlockData
  | .mk _ _ d _ => d

def Block.children : Block → Blocks
  | .mk _ _ _ c => c

/-- Build a child list from a Lean list (used to state theorems). -/
def Blocks.ofList : List Block → Blocks
  | [] => .nil
  | b :: bs => .cons b (Blocks.ofList bs)

/-- The `type` string of the block object, as the source's `switch` and
string guards see it. -/
def BlockData.typeName : BlockData → String
  | .paragraph _ => "paragraph"
  | .heading1 _ => "heading_1"
  | .heading2 _ => "heading_2"
  | .heading3 _ => "heading_3"
  | .bulletedListItem _ => "bulleted_list_item"
  | .numberedListItem _ => "numbered_list_item"
  | .toDo _ _ => "to_do"
  | .toggle _ => "toggle"
  | .code _ _ => "code"
  | .quote _ => "quote"
  | .callout _ _ => "callout"
  | .divider => "divider"
  | .image _ _ => "image"
  | .bookmark _ _ => "bookmark"
  | .table => "table"
  | .tableRow _ => "table_row"
  | .childPage _ => "child_page"
  | .childDatabase _ => "child_database"
  | .embed _ => "embed"
  | .video _ => "video"
  | .file _ _ => "file"
  | .pdf _ => "pdf"
  | .equation _ => "equation"
  | .tableOfContents => "table_of_contents"
  | .breadcrumb => "breadcrumb"
  | .columnList => "column_list"
  | .column => "column"
  | .unsupported n => n

/-- `mapLanguage`: the fixed alias table, queried with the lowercased tag;
a miss falls back to the lowercased tag itself (`map[l] || l`). -/
def langAlias (l : String) : Option String :=
  if l = "js" then some "javascript"
  else if l = "ts" then some "typescript"
  else if l = "py" then some "python"
  else if l = "rb" then some "ruby"
  else if l = "sh" then some "bash"
  else if l = "yml" then some "yaml"
  else if l = "md" then some "markdown"
  else if l = "" then some "plain text"
  else none

def mapLanguage (lang : String) : String :=
  match langAlias (strToLower lang) with
  | some v => v
  | none => strToLower lang

/-- `\w` of the fence regex: ASCII letters, digits, underscore. -/
def isWordChar (c : Char) : Bool :=
  c.isAlphanum || c = '_'

/-- The language tag captured by `line.trim().match(/^```(\w*)/)` together
with the `|| "plain text"` default for an empty capture. -/
def fenceLang (line : String) : String :=
  let capture := ((strTrim line).data.drop 3).takeWhile isWordChar
  if capture.isEmpty then "plain text" else String.mk capture

/-- `/^(#{1,3})\s+(.+)/`: one to three leading hashes (any other count
falls through, since after backtracking the next character is still a
hash), then at least one whitespace, then a nonempty capture; the
backtracking of the greedy `\s+` lets the capture keep the final
whitespace character when nothing else is left.  Lines never contain a
newline here (the engine splits on them first). -/
def wsPlusCapture (cs : List Char) : Option (List Char) :=
  let k := (cs.takeWhile Char.isWhitespace).length
  if k = 0 then none
  else if k < cs.length then some (cs.drop k)
  else if 2 ≤ k then some (cs.drop (k - 1))
  else none

def headingMatch (line : String) : Option (Nat × String) :=
  let m := (line.data.takeWhile (fun c => c = '#')).length
  if 1 ≤ m ∧ m ≤ 3 then
    match wsPlusCapture (line.data.drop m) with
    | some content => some (m, String.mk content)
    | none => none
  else none

/-- `/^[-*]\s+\[([ xX])\]\s+(.*)/`: checklist marker; the returned Bool is
`todoMatch[1].toLowerCase() === "x"`. -/
def todoMatch (line : String) : Option (Bool × String) :=
  match line.data with
  | m :: rest =>
    if m = '-' ∨ m = '*' then
      let k := (rest.takeWhile Char.isWhitespace).length
      if k = 0 then none
      else
        match rest.drop k with
        | '[' :: b :: ']' :: rest2 =>
          if b = ' ' ∨ b = 'x' ∨ b = 'X' then
            let k2 := (rest2.takeWhile Char.isWhitespace).length
            if k2 = 0 then none
            else some (b.toLower == 'x', String.mk (rest2.drop k2))
          else none
        | _ => none
    else none
  | [] => none

/-- `/^[-*]\s+(.*)/`. -/
def bulletMatch (line : String) : Option String :=
  match line.data with
  | m :: rest =>
    if m = '-' ∨ m = '*' then
      let k := (rest.takeWhile Char.isWhitespace).length
      if k = 0 then none else some (String.mk (rest.drop k))
    else none
  | [] => none

/-- `/^\d+\.\s+(.*)/`. -/
def numberedMatch (line : String) : Option String :=
  let ds := line.data.takeWhile Char.isDigit
  if ds.isEmpty then none
  else
    match line.data.drop ds.length with
    | '.' :: rest =>
      let k := (rest.takeWhile Char.isWhitespace).length
      if k = 0 then none else some (String.mk (rest.drop k))
    | _ => none

/-- `/^>\s*(.*)/`. -/
def quoteMatch (line : String) : Option String :=
  match line.data with
  | '>' :: rest => some (String.mk (rest.dropWhile Char.isWhitespace))
  | _ => none

/-- `/^[-*_]{3,}\s*$/.test(line.trim())`: after trimming there can be no
surrounding whitespace, so the test is: at least three characters, all of
them `-`, `*` or `_`. -/
def dividerTest (line : String) : Bool :=
  let t := strTrim line
  decide (3 ≤ t.length) && t.data.all (fun c => c == '-' || c == '*' || c == '_')

/-- `/^\{\{bookmark:([^|}]+)(?:\|([^}]+))?\}\}$/` against the trimmed line:
both captures exclude the closing brace, so the brace pair must be the
final two characters and no brace occurs between; the url stops at the
first `|`, the caption (when the `|` is present) is everything after it
and must be nonempty. -/
def bookmarkMatch (line : String) : Option (String × Option String) :=
  let t := (strTrim line).data
  let pre := "\x7b\x7bbookmark:".data
  if pre.isPrefixOf t then
    let rest := t.drop pre.length
    if rest.drop (rest.length - 2) = [rbrace, rbrace] ∧ 2 ≤ rest.length then
      let mid := rest.take (rest.length - 2)
      if mid.contains rbrace then none
      else
        let url := mid.takeWhile (fun c => !(c == '|'))
        if url.isEmpty then none
        else
          match mid.drop url.length with
          | [] => some (String.mk url, none)
          | _ :: cap => if cap.isEmpty then none else some (String.mk url, some (String.mk cap))
    else none
  else none

/-- `/^\{\{embed:([^}]+)\}\}$/` against the trimmed line. -/
def embedMatch (line : String) : Option String :=
  let t := (strTrim line).data
  let pre := "\x7b\x7bembed:".data
  if pre.isPrefixOf t then
    let rest := t.drop pre.length
    if rest.drop (rest.length - 2) = [rbrace, rbrace] ∧ 2 ≤ rest.length then
      let mid := rest.take (rest.length - 2)
      if mid.isEmpty ∨ mid.contains rbrace then none else some (String.mk mid)
    else none
  else none

/-- `/^!\[([^\]]*)\]\(([^)]+)\)/`: not anchored at the end, the alt text
may be empty, the url may not. -/
def imageMatch (line : String) : Option (String × String) :=
  match line.data with
  | '!' :: '[' :: rest =>
    match takeUntilChar ']' rest with
    | some (alt, r1) =>
      match r1 with
      | '(' :: r2 =>
        match takeUntilChar ')' r2 with
        | some (url, _) =>
          if url.isEmpty then none else some (String.mk alt, String.mk url)
        | none => none
      | _ => none
    | none => none
  | _ => none

/-- The single-line branches of the `markdownToBlocks` loop, in source
order: heading, checklist, bullet, numbered, quote, divider, bookmark,
embed, image, paragraph fallback.  Every branch consumes exactly the one
line and produces exactly one block descriptor. -/
def classifyLine (line : String) : Block :=
  match headingMatch line with
  | some (level, content) =>
    let rt := parseInlineMarkdown content
    Block.mk "" false
      (if level = 1 then .heading1 rt else if level = 2 then .heading2 rt else .heading3 rt) .nil
  | none =>
  match todoMatch line with
  | some (checked, content) =>
    Block.mk "" false (.toDo checked (parseInlineMarkdown content)) .nil
  | none =>
  match bulletMatch line with
  | some content => Block.mk "" false (.bulletedListItem (parseInlineMarkdown content)) .nil
  | none =>
  match numberedMatch line with
  | some content => Block.mk "" false (.numberedListItem (parseInlineMarkdown content)) .nil
  | none =>
  match quoteMatch line with
  | some content => Block.mk "" false (.quote (parseInlineMarkdown content)) .nil
  | none =>
  if dividerTest line then Block.mk "" false .divider .nil
  else
  match bookmarkMatch line with
  | some (url, cap) =>
    Block.mk "" false
      (.bookmark (strTrim url) (match cap with | some c => [.text (strTrim c) none noAnn] | none => [])) .nil
  | none =>
  match embedMatch line with
  | some url => Block.mk "" false (.embed (strTrim url)) .nil
  | none =>
  match imageMatch line with
  | some (alt, url) =>
    Block.mk "" false (.image url (if alt = "" then [] else [.text alt none noAnn])) .nil
  | none => Block.mk "" false (.paragraph (parseInlineMarkdown line)) .nil

/-- The `while (i < lines.length)` loop of `markdownToBlocks`.  Blank lines
are skipped; a fenced-code opener consumes every following line up to (and
including) the closing fence or, failing that, the end of the input; every
other line goes through `classifyLine`.  Each iteration consumes at least
one line, so fuel equal to the number of lines never runs out. -/
def mdLoopAux : Nat → List String → List Block
  | _, [] => []
  | 0, _ :: _ => []
  | n + 1, line :: rest =>
    if strTrim line = "" then mdLoopAux n rest
    else if strStartsWith (strTrim line) "```" then
      let codeLines := rest.takeWhile (fun l => !(strStartsWith (strTrim l) "```"))
      let rest2 := (rest.dropWhile (fun l => !(strStartsWith (strTrim l) "```"))).drop 1
      Block.mk "" false
          (.code (mapLanguage (fenceLang line)) [.text (joinLines "\n" codeLines) none noAnn]) .nil
        :: mdLoopAux n rest2
    else classifyLine line :: mdLoopAux n rest

/-- `markdownToBlocks`: split on newlines, then run the classifier loop. -/
def markdownToBlocks (markdown : String) : List Block :=
  let lines := (splitChar '\n' markdown.data).map String.mk
  mdLoopAux lines.length lines


/-- The table branch of `blockToMarkdown`: iterate over the fetched
children with their index, render the cells of every `table_row` into one
`| .. | .. |` line, and after the row at index 0 insert a separator line
with one `---` cell per header cell; non-row children are skipped
(`continue`) and the index still advances.  Rows are rendered from their
cells only — the branch never descends into a row's own children. -/
def tableLines : Blocks → Nat → List String
  | .nil, _ => []
  | .cons (Block.mk _ _ (.tableRow cells) _) rest, i =>
    let cellsMd := cells.map richTextToMarkdown
    let rowLine := "| " ++ joinLines " | " cellsMd ++ " |"
    let seps :=
      if i = 0 then ["| " ++ joinLines " | " (cellsMd.map (fun _ => "---")) ++ " |"] else []
    rowLine :: seps ++ tableLines rest (i + 1)
  | .cons _ rest, i => tableLines rest (i + 1)

/-- `line.split("\n").map((l) => prefix + l).join("\n")`. -/
def prefixLines (pfx : String) (line : String) : String :=
  joinLines "\n" ((splitChar '\n' line.data).map (fun l => pfx ++ String.mk l))

/- `blockToMarkdown` / `blocksToMarkdown` and the column walk of the
`column_list` case, as one mutual structural recursion over the block
tree: the `switch` on the discriminant builds `line`; children are fetched
and rendered one indent deeper only when `has_children` is set and the
type is none of table/column_list/column; every line of `line` is prefixed
with the indent; a toggle whose rendered children are nonempty appends the
`</details>` closing marker after them. -/
mutual

/-- `blockToMarkdown(block, indent)` (see the comment above this mutual group). -/
def blockToMarkdown : Block → Nat → String
  | Block.mk id hasChildren bdata children, indent =>
    let pfx := strRepeat "  " indent
    let line : String :=
      match bdata with
      | .paragraph rt => richTextToMarkdown rt
      | .heading1 rt => "# " ++ richTextToMarkdown rt
      | .heading2 rt => "## " ++ richTextToMarkdown rt
      | .heading3 rt => "### " ++ richTextToMarkdown rt
      | .bulletedListItem rt => "- " ++ richTextToMarkdown rt
      | .numberedListItem rt => "1. " ++ richTextToMarkdown rt
      | .toDo checked rt =>
        "- [" ++ (if checked then "x" else " ") ++ "] " ++ richTextToMarkdown rt
      | .toggle rt =>
        "<details>\n" ++ pfx ++ "<summary>" ++ richTextToMarkdown rt ++ "</summary>"
      | .code lang rt => "```" ++ lang ++ "\n" ++ richTextToMarkdown rt ++ "\n```"
      | .quote rt => "> " ++ richTextToMarkdown rt
      | .callout icon rt =>
        "> " ++ (match icon with | some e => e ++ " " | none => "") ++ richTextToMarkdown rt
      | .divider => "---"
      | .image url caption => "![" ++ richTextToMarkdown caption ++ "](" ++ url ++ ")"
      | .bookmark url caption =>
        if caption.isEmpty then "\x7b\x7bbookmark:" ++ url ++ "\x7d\x7d"
        else "\x7b\x7bbookmark:" ++ url ++ "|" ++ richTextToMarkdown caption ++ "\x7d\x7d"
      | .table => joinLines "\n" (tableLines children 0)
      | .childPage title => "**[Child Page: " ++ title ++ "]** (id: " ++ id ++ ")"
      | .childDatabase title => "**[Child Database: " ++ title ++ "]** (id: " ++ id ++ ")"
      | .embed url => "\x7b\x7bembed:" ++ url ++ "\x7d\x7d"
      | .video url => "[Video](" ++ url ++ ")"
      | .file url caption => "[" ++ richTextToMarkdown caption ++ "](" ++ url ++ ")"
      | .pdf url => "[PDF](" ++ url ++ ")"
      | .equation expression => "$$" ++ expression ++ "$$"
      | .tableOfContents => "<!-- table_of_contents -->"
      | .breadcrumb => "<!-- breadcrumb -->"
      | .columnList => joinLines "\n\n" (columnParts children indent)
      | d => "<!-- unsupported block type: " ++ d.typeName ++ " -->"
    let childrenStr : String :=
      if hasChildren
          ∧ bdata.typeName ≠ "table" ∧ bdata.typeName ≠ "column_list" ∧ bdata.typeName ≠ "column"
      then blocksToMarkdown children (indent + 1)
      else ""
    let prefixed := prefixLines pfx line
    if bdata.typeName = "toggle" ∧ childrenStr ≠ "" then
      prefixed ++ "\n" ++ childrenStr ++ "\n" ++ pfx ++ "</details>"
    else if childrenStr ≠ "" then prefixed ++ "\n" ++ childrenStr
    else prefixed

/-- `blocksToMarkdown(blocks, indent)`: render each block, join with `"\n"`. -/
def blocksToMarkdown : Blocks → Nat → String
  | .nil, _ => ""
  | .cons b .nil, indent => blockToMarkdown b indent
  | .cons b tl, indent => blockToMarkdown b indent ++ "\n" ++ blocksToMarkdown tl indent

/-- The `column_list` case: each `column` child has its own children
fetched and rendered at the same indent; the rendered columns are later
joined with a blank-line separator.  Non-column children are skipped. -/
def columnParts : Blocks → Nat → List String
  | .nil, _ => []
  | .cons (Block.mk _ _ .column colChildren) tl, indent =>
    blocksToMarkdown colChildren indent :: columnParts tl indent
  | .cons _ tl, indent => columnParts tl indent

end

/-- The round-trip composition interface: decoded block descriptors are
submitted to the store and later fetched back unchanged (ids and
`has_children` filled in by the store do not affect rendering of leaf
blocks), so re-encoding a decoded list is `blocksToMarkdown` over it at
indent 0. -/
def encodeBlocks (bs : List Block) : String :=
  blocksToMarkdown (Blocks.ofList bs) 0

/-- Erase every whitespace character: two strings equal after this erasure
are equal "modulo indentation-insignificant whitespace" in the widest
possible sense. -/
def stripWhitespace (s : String) : String :=
  String.mk (s.data.filter (fun c => !c.isWhitespace))

/-- What the decode loop produces for a run of fence-free lines: blank
lines are skipped, every other line goes through `classifyLine`.  (Each
non-fence branch of the loop consumes exactly its one line.) -/
def classifiedBlocks (pre : List String) : List Block :=
  pre.filterMap (fun l => if strTrim l = "" then none else some (classifyLine l))

/-- The markup line a table row with the given cells renders to. -/
def rowLine (cells : List (List RichTextItem)) : String :=
  "| " ++ joinLines " | " (cells.map richTextToMarkdown) ++ " |"

/-- The separator line emitted after the header row: one `---` cell per
header cell. -/
def sepLine (cells : List (List RichTextItem)) : String :=
  "| " ++ joinLines " | " ((cells.map richTextToMarkdown).map (fun _ => "---")) ++ " |"

-- ── Helper lemmas ─────────────────────────────────────────────────────────

theorem str_eq_of_data {a b : String} (h : a.data = b.data) : a = b := by
  cases a
  cases b
  exact congrArg String.mk h

theorem str_data_append (a b : String) : (a ++ b).data = a.data ++ b.data :=
  String.data_append a b

theorem str_empty_append (s : String) : "" ++ s = s := by
  cases s
  rfl

-- ── C3: classification priority ───────────────────────────────────────────

/-- Claim C3: `"- [x] done"` decodes as a checklist item (`to_do`,
`checked = true`) and never as a bulleted item — even though the generic
bullet pattern would match it (second conjunct) — and `"---"` decodes as a
divider and never as a bulleted or numbered item, because of the priority
order of the classifier. -/
theorem c3_classification_priority :
    markdownToBlocks "- [x] done"
        = [Block.mk "" false (.toDo true [.text "done" none noAnn]) .nil]
      ∧ bulletMatch "- [x] done" = some "[x] done"
      ∧ markdownToBlocks "---" = [Block.mk "" false .divider .nil]
      ∧ bulletMatch "---" = none ∧ numberedMatch "---" = none :=
  ⟨rfl, rfl, rfl, rfl, rfl⟩

-- ── C5: decode scenario ───────────────────────────────────────────────────

/-- Claim C5: decoding the scenario input yields exactly heading-1
"Title", unchecked checklist "todo1", checked checklist "todo2", and a
code block with language "python" and content "print(1)"; the blank lines
produce no blocks. -/
theorem c5_decode_scenario :
    markdownToBlocks "# Title\n\n- [ ] todo1\n- [x] todo2\n\n```py\nprint(1)\n```"
      = [Block.mk "" false (.heading1 [.text "Title" none noAnn]) .nil,
         Block.mk "" false (.toDo false [.text "todo1" none noAnn]) .nil,
         Block.mk "" false (.toDo true [.text "todo2" none noAnn]) .nil,
         Block.mk "" false (.code "python" [.text "print(1)" none noAnn]) .nil] :=
  rfl

-- ── C1: re-encode is not idempotent (language tag round trip) ─────────────

/-- Claim C1 fails on the code: for the decode-produced tree of
`"```\nx\n```"` the first encoding carries the stored language
`"plain text"`, whose re-decode reads only the word-character run `plain`
of the tag, so the third encoding differs from the first by the
non-whitespace word `text` — not an indentation-insignificant difference.
This contradicts the spec's own stated testable property, so it is
evidence of a code bug rather than a correctable claim. -/
theorem c1_reencode_not_idempotent :
    encodeBlocks (markdownToBlocks "```\nx\n```") = "```plain text\nx\n```"
      ∧ encodeBlocks (markdownToBlocks (encodeBlocks (markdownToBlocks "```\nx\n```")))
          = "```plain\nx\n```"
      ∧ encodeBlocks (markdownToBlocks (encodeBlocks (markdownToBlocks "```\nx\n```")))
          ≠ encodeBlocks (markdownToBlocks "```\nx\n```")
      ∧ stripWhitespace
            (encodeBlocks (markdownToBlocks (encodeBlocks (markdownToBlocks "```\nx\n```"))))
          ≠ stripWhitespace (encodeBlocks (markdownToBlocks "```\nx\n```")) :=
  ⟨rfl, rfl, by decide, by decide⟩

-- ── C6: annotation nesting order of the encoder ───────────────────────────

/-- Claim C6's example string is off by one marker: a run with all four
annotations and content `t` encodes with a *symmetric* italic marker,
`~~***`t`***~~`, not the claimed `~~***`t`**~~`. -/
theorem c6_counterexample :
    richTextToMarkdown [.text "t" none allAnn] ≠ "~~***`t`**~~" := by
  decide

theorem c6_nesting_helper (t : String) :
    "~~" ++ ("*" ++ ("**" ++ ("`" ++ t ++ "`") ++ "**") ++ "*") ++ "~~"
      = "~~***`" ++ t ++ "`***~~" := by
  apply str_eq_of_data
  simp [str_data_append]

/-- Claim C6 (amended): for every nonempty literal run the encoder applies
the annotation markers in nesting order code innermost, then bold, then
italic, then strikethrough outermost — a run with all four annotations and
content `t` encodes as `~~***`t`***~~` — and wraps the whole result in a
`[text](url)` link marker when a hyperlink target is present. -/
theorem c6_annotation_nesting (t u : String) (h : t ≠ "") :
    richTextToMarkdown [.text t none allAnn] = "~~***`" ++ t ++ "`***~~"
      ∧ richTextToMarkdown [.text t (some u) allAnn]
          = "[" ++ ("~~***`" ++ t ++ "`***~~") ++ "](" ++ u ++ ")" := by
  constructor
  · show joinLines "" [richTextItemToMarkdown (.text t none allAnn)] = _
    rw [joinLines, richTextItemToMarkdown]
    rw [if_neg h]
    exact c6_nesting_helper t
  · show joinLines "" [richTextItemToMarkdown (.text t (some u) allAnn)] = _
    rw [joinLines, richTextItemToMarkdown]
    rw [if_neg h]
    rw [show applyAnnotations allAnn t
          = "~~" ++ ("*" ++ ("**" ++ ("`" ++ t ++ "`") ++ "**") ++ "*") ++ "~~" from rfl]
    rw [c6_nesting_helper t]

theorem c6_annotation_nesting_witness :
    ("t" : String) ≠ ""
      ∧ richTextToMarkdown [.text "t" none allAnn] = "~~***`" ++ "t" ++ "`***~~" :=
  ⟨by decide, (c6_annotation_nesting "t" "u" (by decide)).1⟩

-- ── C8: fence language normalization ──────────────────────────────────────

/-- Claim C8: the language tag of an opened fence is normalized through
the fixed alias table; a tag missing from the table is stored unchanged in
lower case, and an empty tag is stored as the canonical `"plain text"`. -/
theorem c8_language_normalization (lang : String)
    (h : langAlias (strToLower lang) = none) :
    mapLanguage lang = strToLower lang
      ∧ mapLanguage "py" = "python" ∧ mapLanguage "js" = "javascript"
      ∧ mapLanguage "ts" = "typescript" ∧ mapLanguage "rb" = "ruby"
      ∧ mapLanguage "sh" = "bash" ∧ mapLanguage "yml" = "yaml"
      ∧ mapLanguage "md" = "markdown" ∧ mapLanguage "PY" = "python"
      ∧ mapLanguage "" = "plain text"
      ∧ markdownToBlocks "```py\na\n```"
          = [Block.mk "" false (.code "python" [.text "a" none noAnn]) .nil]
      ∧ markdownToBlocks "```TS\na\n```"
          = [Block.mk "" false (.code "typescript" [.text "a" none noAnn]) .nil]
      ∧ markdownToBlocks "```\na\n```"
          = [Block.mk "" false (.code "plain text" [.text "a" none noAnn]) .nil] := by
  refine ⟨?_, rfl, rfl, rfl, rfl, rfl, rfl, rfl, rfl, rfl, rfl, rfl, rfl⟩
  rw [mapLanguage, h]

theorem c8_language_normalization_witness :
    langAlias (strToLower "lua") = none ∧ mapLanguage "lua" = strToLower "lua" :=
  ⟨by decide, (c8_language_normalization "lua" (by decide)).1⟩

-- ── C4: annotation round trip of the Span Codec ───────────────────────────

theorem str_ne_empty_data {c : String} (h : c ≠ "") : c.data ≠ [] := by
  intro hd
  exact h (str_eq_of_data hd)

theorem findClose_double_star (l : List Char) (hne : l ≠ [])
    (hstar : '*' ∉ l) (hnl : '\n' ∉ l) :
    findClose ['*', '*'] (l ++ ['*', '*']) = some (l, []) := by
  induction l with
  | nil => exact absurd rfl hne
  | cons a t ih =>
    have ha1 : a ≠ '\n' := fun h => hnl (h ▸ List.mem_cons_self a t)
    rw [List.cons_append, findClose, if_neg ha1]
    cases t with
    | nil =>
      rw [if_pos (by decide)]
      rfl
    | cons b t' =>
      have hb : b ≠ '*' := fun h => hstar (h ▸ List.mem_cons_of_mem a (List.mem_cons_self b t'))
      have hnpre : ¬(['*', '*'].isPrefixOf ((b :: t') ++ ['*', '*']) = true) := by
        simp [List.isPrefixOf]
        intro h
        exact absurd h.symm hb
      rw [if_neg hnpre,
        ih (by simp) (fun h => hstar (List.mem_cons_of_mem a h))
          (fun h => hnl (List.mem_cons_of_mem a h))]

theorem matchToken_bold_run (l : List Char) (hne : l ≠ [])
    (hstar : '*' ∉ l) (hnl : '\n' ∉ l) :
    matchToken '*' ('*' :: (l ++ ['*', '*'])) = (.text (String.mk l) none boldAnn, []) := by
  rw [matchToken, tryMention, if_neg (by decide), tryLink, if_neg (by decide),
    tryBold, if_pos rfl, if_pos rfl, findClose_double_star l hne hstar hnl]

/-- Claim C4: encoding a literal run carrying only the bold annotation and
decoding the result yields that very run back — bold set, no other
annotation — for every nonempty content without `*` or a newline (with a
`*` or newline inside, the emitted `**`-markers no longer delimit one bold
span, which is why the hypotheses are needed); and decoding `"**a** *b*"`
yields exactly three literal runs in order: bold `"a"`, an unannotated
run holding the separating space, and italic `"b"`. -/
theorem c4_annotation_round_trip (c : String) (h1 : c ≠ "")
    (h2 : '*' ∉ c.data) (h3 : '\n' ∉ c.data) :
    parseInlineMarkdown (richTextToMarkdown [.text c none boldAnn]) = [.text c none boldAnn]
      ∧ parseInlineMarkdown "**a** *b*"
          = [.text "a" none boldAnn, .text " " none noAnn, .text "b" none italicAnn] := by
  refine ⟨?_, rfl⟩
  have e1 : richTextToMarkdown [.text c none boldAnn] = "**" ++ c ++ "**" := by
    show joinLines "" [richTextItemToMarkdown (.text c none boldAnn)] = _
    rw [joinLines, richTextItemToMarkdown, if_neg h1]
    rfl
  rw [e1]
  have hdata : ("**" ++ c ++ "**").data = '*' :: '*' :: (c.data ++ ['*', '*']) := by
    simp [str_data_append]
  rw [parseInlineMarkdown, hdata]
  rw [show ('*' :: '*' :: (c.data ++ ['*', '*'])).length = (c.data ++ ['*', '*']).length + 1 + 1
      from rfl]
  rw [scanAux, matchToken_bold_run c.data (str_ne_empty_data h1) h2 h3]
  rfl

theorem c4_annotation_round_trip_witness :
    (("ab" : String) ≠ "" ∧ '*' ∉ ("ab" : String).data ∧ '\n' ∉ ("ab" : String).data)
      ∧ parseInlineMarkdown (richTextToMarkdown [.text "ab" none boldAnn])
          = [.text "ab" none boldAnn] :=
  ⟨⟨by decide, by decide, by decide⟩,
    (c4_annotation_round_trip "ab" (by decide) (by decide) (by decide)).1⟩

-- ── C2: termination and full consumption on an unclosed fence ─────────────

theorem mdLoopAux_nil (n : Nat) : mdLoopAux n [] = [] := by
  cases n <;> rfl

theorem mdLoopAux_append (pre : List String) (n : Nat) (tail : List String)
    (hpre : ∀ l ∈ pre, strStartsWith (strTrim l) "```" = false) :
    mdLoopAux (pre.length + n) (pre ++ tail) = classifiedBlocks pre ++ mdLoopAux n tail := by
  induction pre with
  | nil => simp [classifiedBlocks]
  | cons l pre' ih =>
    have hfuel : (l :: pre').length + n = (pre'.length + n) + 1 := by
      simp [List.length_cons]
      omega
    rw [hfuel, List.cons_append, mdLoopAux]
    have hl := hpre l (List.mem_cons_self l pre')
    by_cases hb : strTrim l = ""
    · rw [if_pos hb, ih (fun x hx => hpre x (List.mem_cons_of_mem l hx))]
      simp [classifiedBlocks, List.filterMap_cons, hb]
    · rw [if_neg hb, if_neg (by simp [hl]), ih (fun x hx => hpre x (List.mem_cons_of_mem l hx))]
      simp [classifiedBlocks, List.filterMap_cons, hb]

/-- Claim C2: on any input whose line sequence is fence-free lines, then
an opening fence, then only fence-free lines to the end of input, decode
(a total function, so it terminates by construction) consumes every line
after the opening fence into the single code block's content: nothing of
the tail is dropped, and nothing after the code block is produced. -/
theorem c2_unclosed_fence (s : String) (pre rest : List String) (fline : String)
    (hsplit : (splitChar '\n' s.data).map String.mk = pre ++ fline :: rest)
    (hpre : ∀ l ∈ pre, strStartsWith (strTrim l) "```" = false)
    (hfence : strStartsWith (strTrim fline) "```" = true)
    (hrest : ∀ l ∈ rest, strStartsWith (strTrim l) "```" = false) :
    markdownToBlocks s
      = classifiedBlocks pre
          ++ [Block.mk "" false
                (.code (mapLanguage (fenceLang fline))
                  [.text (joinLines "\n" rest) none noAnn]) .nil] := by
  simp only [markdownToBlocks]
  rw [hsplit]
  rw [show (pre ++ fline :: rest).length = pre.length + (rest.length + 1) by simp]
  rw [mdLoopAux_append pre (rest.length + 1) (fline :: rest) hpre]
  congr 1
  have htrim : ¬(strTrim fline = "") := by
    intro h
    rw [h] at hfence
    exact absurd hfence (by decide)
  rw [mdLoopAux, if_neg htrim, if_pos hfence]
  rw [List.takeWhile_eq_self_iff.mpr (fun l hl => by simp [hrest l hl])]
  rw [List.dropWhile_eq_nil_iff.mpr (fun l hl => by simp [hrest l hl])]
  simp [mdLoopAux_nil]

theorem c2_unclosed_fence_witness :
    ((splitChar '\n' ("a\n```py\nx\ny" : String).data).map String.mk
        = ["a"] ++ "```py" :: ["x", "y"]
      ∧ (∀ l ∈ ["a"], strStartsWith (strTrim l) "```" = false)
      ∧ strStartsWith (strTrim "```py") "```" = true
      ∧ (∀ l ∈ ["x", "y"], strStartsWith (strTrim l) "```" = false))
      ∧ markdownToBlocks "a\n```py\nx\ny"
          = classifiedBlocks ["a"]
              ++ [Block.mk "" false
                    (.code (mapLanguage (fenceLang "```py"))
                      [.text (joinLines "\n" ["x", "y"]) none noAnn]) .nil] :=
  ⟨⟨by decide, by decide, by decide, by decide⟩,
    c2_unclosed_fence "a\n```py\nx\ny" ["a"] ["x", "y"] "```py"
      (by decide) (by decide) (by decide) (by decide)⟩

-- ── C7 / C9: encode engine lemmas ─────────────────────────────────────────

theorem splitChar_ne_nil (c : Char) (l : List Char) : splitChar c l ≠ [] := by
  cases l with
  | nil => simp [splitChar]
  | cons a rest =>
    rw [splitChar]
    cases h : splitChar c rest with
    | nil => simp
    | cons g gs =>
      by_cases hc : a = c <;> simp [hc]

theorem joinLines_cons_char (a : Char) (g : List Char) (L : List String) :
    joinLines "\n" (String.mk (a :: g) :: L)
      = String.mk (a :: (joinLines "\n" (String.mk g :: L)).data) := by
  cases L with
  | nil => rfl
  | cons x xs =>
    apply str_eq_of_data
    rw [show joinLines "\n" (String.mk (a :: g) :: x :: xs)
          = String.mk (a :: g) ++ "\n" ++ joinLines "\n" (x :: xs) from rfl,
      show joinLines "\n" (String.mk g :: x :: xs)
          = String.mk g ++ "\n" ++ joinLines "\n" (x :: xs) from rfl]
    simp [str_data_append]

/-- Joining the newline-split groups of a string with newlines restores
the string: the correctness fact behind per-line prefixing. -/
theorem join_split (d : List Char) :
    joinLines "\n" ((splitChar '\n' d).map String.mk) = String.mk d := by
  induction d with
  | nil => rfl
  | cons a rest ih =>
    obtain ⟨g, gs, hsp⟩ : ∃ g gs, splitChar '\n' rest = g :: gs := by
      cases h : splitChar '\n' rest with
      | nil => exact absurd h (splitChar_ne_nil '\n' rest)
      | cons g gs => exact ⟨g, gs, rfl⟩
    rw [hsp] at ih
    by_cases hc : a = '\n'
    · subst hc
      have hs1 : splitChar '\n' ('\n' :: rest) = [] :: g :: gs := by
        simp [splitChar, hsp]
      rw [hs1]
      apply str_eq_of_data
      rw [show joinLines "\n" (List.map String.mk ([] :: g :: gs))
            = "" ++ "\n" ++ joinLines "\n" (List.map String.mk (g :: gs)) from rfl]
      simp [str_data_append]
      exact congrArg String.data ih
    · have hs2 : splitChar '\n' (a :: rest) = (a :: g) :: gs := by
        simp [splitChar, hsp, hc]
      rw [List.map] at ih
      rw [hs2, List.map, joinLines_cons_char, ih]

/-- Prefixing every line with the empty indent is the identity. -/
theorem prefixLines_empty (line : String) : prefixLines "" line = line := by
  rw [prefixLines]
  rw [show (fun l => "" ++ String.mk l) = String.mk from
    funext (fun l => str_empty_append (String.mk l))]
  rw [join_split]

theorem append_newline_ne_empty (a b : String) : a ++ "\n" ++ b ≠ "" := by
  intro h
  have hd := congrArg String.data h
  simp [str_data_append] at hd

/-- Claim C7: at indent 0, a toggle with two paragraph children renders as
the opening disclosure line, the summary line from the toggle's own rich
text, the two paragraph lines prefixed with one extra indent unit (strictly
more indented than the summary line, which carries no prefix), and the
closing `</details>` marker after the children; a toggle with no fetched
children — whether `has_children` is false or the provider returns an
empty list — renders without any closing marker. -/
theorem c7_toggle_encoding (id0 : String) (rt0 rt1 rt2 : List RichTextItem) :
    blockToMarkdown
        (Block.mk id0 true (.toggle rt0)
          (.cons (Block.mk "" false (.paragraph rt1) .nil)
            (.cons (Block.mk "" false (.paragraph rt2) .nil) .nil))) 0
      = "<details>\n<summary>" ++ richTextToMarkdown rt0 ++ "</summary>"
          ++ "\n" ++ (prefixLines "  " (richTextToMarkdown rt1) ++ "\n"
              ++ prefixLines "  " (richTextToMarkdown rt2))
          ++ "\n" ++ "</details>"
      ∧ blockToMarkdown (Block.mk id0 false (.toggle rt0) .nil) 0
          = "<details>\n<summary>" ++ richTextToMarkdown rt0 ++ "</summary>"
      ∧ blockToMarkdown (Block.mk id0 true (.toggle rt0) .nil) 0
          = "<details>\n<summary>" ++ richTextToMarkdown rt0 ++ "</summary>" := by
  refine ⟨?_, ?_, ?_⟩
  · show (if (("toggle" : String) = "toggle"
              ∧ (prefixLines "  " (richTextToMarkdown rt1) ++ "\n"
                  ++ prefixLines "  " (richTextToMarkdown rt2)) ≠ "")
          then prefixLines ""
                ("<details>\n" ++ "" ++ "<summary>" ++ richTextToMarkdown rt0 ++ "</summary>")
              ++ "\n"
              ++ (prefixLines "  " (richTextToMarkdown rt1) ++ "\n"
                  ++ prefixLines "  " (richTextToMarkdown rt2))
              ++ "\n" ++ "" ++ "</details>"
          else if (prefixLines "  " (richTextToMarkdown rt1) ++ "\n"
                  ++ prefixLines "  " (richTextToMarkdown rt2)) ≠ ""
          then prefixLines ""
                ("<details>\n" ++ "" ++ "<summary>" ++ richTextToMarkdown rt0 ++ "</summary>")
              ++ "\n"
              ++ (prefixLines "  " (richTextToMarkdown rt1) ++ "\n"
                  ++ prefixLines "  " (richTextToMarkdown rt2))
          else prefixLines ""
                ("<details>\n" ++ "" ++ "<summary>" ++ richTextToMarkdown rt0 ++ "</summary>"))
        = _
    rw [if_pos ⟨rfl, append_newline_ne_empty _ _⟩, prefixLines_empty]
    apply str_eq_of_data
    simp [str_data_append]
  · show prefixLines ""
          ("<details>\n" ++ "" ++ "<summary>" ++ richTextToMarkdown rt0 ++ "</summary>") = _
    rw [prefixLines_empty]
    apply str_eq_of_data
    simp [str_data_append]
  · show prefixLines ""
          ("<details>\n" ++ "" ++ "<summary>" ++ richTextToMarkdown rt0 ++ "</summary>") = _
    rw [prefixLines_empty]
    apply str_eq_of_data
    simp [str_data_append]

theorem tableLines_tail (rows : List (List (List RichTextItem) × Bool × Blocks)) (i : Nat)
    (hi : i ≠ 0) :
    tableLines (Blocks.ofList (rows.map (fun t => Block.mk "" t.2.1 (.tableRow t.1) t.2.2))) i
      = rows.map (fun t => rowLine t.1) := by
  induction rows generalizing i with
  | nil => rfl
  | cons t rest ih =>
    rw [List.map, Blocks.ofList, tableLines, if_neg hi, ih (i + 1) (by omega)]
    rfl

/-- Claim C9: a table block renders its fetched table-row children so that
the first row becomes the header line, immediately followed by one
separator line with one `---` cell per header cell, and every later row
becomes one data line in order; the rows' own `has_children` flags and
child lists are ignored (no recursion into rows), and the table's own
`has_children = true` does not trigger the generic children recursion. -/
theorem c9_table_encoding (id0 : String) (c0 : List (List RichTextItem)) (hc0 : Bool)
    (ch0 : Blocks) (rows : List (List (List RichTextItem) × Bool × Blocks)) :
    blockToMarkdown
        (Block.mk id0 true .table
          (.cons (Block.mk "" hc0 (.tableRow c0) ch0)
            (Blocks.ofList (rows.map (fun t => Block.mk "" t.2.1 (.tableRow t.1) t.2.2))))) 0
      = joinLines "\n" (rowLine c0 :: sepLine c0 :: rows.map (fun t => rowLine t.1)) := by
  show prefixLines ""
        (joinLines "\n"
          (tableLines
            (.cons (Block.mk "" hc0 (.tableRow c0) ch0)
              (Blocks.ofList (rows.map (fun t => Block.mk "" t.2.1 (.tableRow t.1) t.2.2)))) 0))
      = _
  rw [prefixLines_empty, tableLines, if_pos rfl, tableLines_tail rows 1 (by omega)]
  rfl

-- ── C10: indentation sensitivity of line classification ──────────────────

theorem ws_char_cases {c : Char} (h : c.isWhitespace = true) :
    c = ' ' ∨ c = '\t' ∨ c = '\r' ∨ c = '\n' := by
  simpa [Char.isWhitespace, or_assoc] using h

theorem headingMatch_ws {l : String} {c : Char} {cs : List Char}
    (hd : l.data = c :: cs) (hc : c ≠ '#') : headingMatch l = none := by
  unfold headingMatch
  rw [hd, List.takeWhile_cons, if_neg (by simp [hc])]

theorem todoMatch_ws {l : String} {c : Char} {cs : List Char}
    (hd : l.data = c :: cs) (hc1 : c ≠ '-') (hc2 : c ≠ '*') : todoMatch l = none := by
  unfold todoMatch
  rw [hd]
  show (if c = '-' ∨ c = '*' then _ else none) = none
  rw [if_neg (by rintro (h | h) <;> [exact hc1 h; exact hc2 h])]

theorem bulletMatch_ws {l : String} {c : Char} {cs : List Char}
    (hd : l.data = c :: cs) (hc1 : c ≠ '-') (hc2 : c ≠ '*') : bulletMatch l = none := by
  unfold bulletMatch
  rw [hd]
  show (if c = '-' ∨ c = '*' then _ else none) = none
  rw [if_neg (by rintro (h | h) <;> [exact hc1 h; exact hc2 h])]

theorem numberedMatch_ws {l : String} {c : Char} {cs : List Char}
    (hd : l.data = c :: cs) (hc : c.isDigit = false) : numberedMatch l = none := by
  have hds : (c :: cs).takeWhile Char.isDigit = [] := by
    rw [List.takeWhile_cons, if_neg (by simp [hc])]
  unfold numberedMatch
  rw [hd, hds]
  rfl

theorem quoteMatch_ws {l : String} {c : Char} {cs : List Char}
    (hd : l.data = c :: cs) (hc : c ≠ '>') : quoteMatch l = none := by
  unfold quoteMatch
  rw [hd]
  split
  · next heq =>
      injection heq with h1 h2
      exact absurd h1 hc
  · rfl

theorem imageMatch_ws {l : String} {c : Char} {cs : List Char}
    (hd : l.data = c :: cs) (hc : c ≠ '!') : imageMatch l = none := by
  unfold imageMatch
  rw [hd]
  split
  · next heq =>
      injection heq with h1 h2
      exact absurd h1 hc
  · rfl

theorem splitChar_no_sep (c : Char) (d : List Char) (h : c ∉ d) : splitChar c d = [d] := by
  induction d with
  | nil => rfl
  | cons a rest ih =>
    simp only [List.mem_cons, not_or] at h
    obtain ⟨hne, hnm⟩ := h
    rw [splitChar, ih hnm]
    show (if a = c then [[], rest] else [a :: rest]) = [a :: rest]
    rw [if_neg (fun he => hne (he.symm))]

theorem matchToken_plain (c : Char) (cs : List Char) (h : isSpecialChar c = false) :
    matchToken c cs
      = (.text (String.mk (c :: cs.takeWhile (fun x => !(isSpecialChar x)))) none noAnn,
          cs.dropWhile (fun x => !(isSpecialChar x))) := by
  obtain ⟨h1, h2, h3, h4, h5⟩ :
      c ≠ '[' ∧ c ≠ lbrace ∧ c ≠ '*' ∧ c ≠ btick ∧ c ≠ '~' := by
    simpa [isSpecialChar, and_assoc] using h
  unfold matchToken tryMention tryLink tryBold tryItalic tryCode tryStrike
  rw [if_neg h2, if_neg h1, if_neg h3, if_neg h3, if_neg h4, if_neg h5, if_neg (by simp [h])]

theorem parseInline_ws_head (l : String) (c : Char) (cs : List Char)
    (hd : l.data = c :: cs) (h : isSpecialChar c = false) :
    parseInlineMarkdown l
      = .text (String.mk (c :: cs.takeWhile (fun x => !(isSpecialChar x)))) none noAnn
          :: scanAux cs.length (cs.dropWhile (fun x => !(isSpecialChar x))) := by
  unfold parseInlineMarkdown
  rw [hd]
  rw [show (c :: cs).length = cs.length + 1 from rfl]
  rw [scanAux, matchToken_plain c cs h]
  rfl

theorem mdLoop_single (l : String) (hb : strTrim l ≠ "")
    (hf : strStartsWith (strTrim l) "```" = false) :
    mdLoopAux 1 [l] = [classifyLine l] := by
  rw [show (1 : Nat) = 0 + 1 from rfl, mdLoopAux, if_neg hb, if_neg (by simp [hf])]
  rfl

/-- Claim C10: a line beginning with a whitespace character can never
match the column-0-anchored heading/checklist/bullet/numbered/quote/image
patterns, so (unless its trimmed form is blank, opens a fence, or is a
divider/bookmark/embed placeholder, which are all tested against the
trimmed line) it decodes as a paragraph whose rich text starts with a
plain run that retains the leading whitespace (the run is the maximal
prefix of non-special characters, and whitespace is not special); the
trailing conjuncts show that an indented fence opener, divider, bookmark
placeholder and embed placeholder still classify as their own block
types. -/
theorem c10_indentation_sensitivity (l : String) (c : Char) (cs : List Char)
    (hd : l.data = c :: cs) (hw : c.isWhitespace = true) (hnl : '\n' ∉ l.data)
    (hblank : strTrim l ≠ "")
    (hfence : strStartsWith (strTrim l) "```" = false)
    (hdiv : dividerTest l = false)
    (hbook : bookmarkMatch l = none)
    (hembed : embedMatch l = none) :
    (headingMatch l = none ∧ todoMatch l = none ∧ bulletMatch l = none
        ∧ numberedMatch l = none ∧ quoteMatch l = none ∧ imageMatch l = none)
      ∧ markdownToBlocks l = [Block.mk "" false (.paragraph (parseInlineMarkdown l)) .nil]
      ∧ (∃ w rest, parseInlineMarkdown l = .text w none noAnn :: rest
            ∧ w.data = l.data.takeWhile (fun x => !(isSpecialChar x)))
      ∧ markdownToBlocks "  ```py\nx\n  ```"
          = [Block.mk "" false (.code "python" [.text "x" none noAnn]) .nil]
      ∧ markdownToBlocks "   ---" = [Block.mk "" false .divider .nil]
      ∧ markdownToBlocks "  \x7b\x7bbookmark:u\x7d\x7d"
          = [Block.mk "" false (.bookmark "u" []) .nil]
      ∧ markdownToBlocks "  \x7b\x7bembed:u\x7d\x7d"
          = [Block.mk "" false (.embed "u") .nil] := by
  obtain ⟨f1, f2, f3, f4, f5, f6, f7⟩ :
      c ≠ '#' ∧ c ≠ '-' ∧ c ≠ '*' ∧ c.isDigit = false ∧ c ≠ '>' ∧ c ≠ '!'
        ∧ isSpecialChar c = false := by
    rcases ws_char_cases hw with h | h | h | h <;> subst h <;> exact by decide
  have m1 := headingMatch_ws hd f1
  have m2 := todoMatch_ws hd f2 f3
  have m3 := bulletMatch_ws hd f2 f3
  have m4 := numberedMatch_ws hd f4
  have m5 := quoteMatch_ws hd f5
  have m6 := imageMatch_ws hd f6
  have hclassify : classifyLine l = Block.mk "" false (.paragraph (parseInlineMarkdown l)) .nil := by
    unfold classifyLine
    rw [m1, m2, m3, m4, m5, hdiv, hbook, hembed, m6]
    rfl
  refine ⟨⟨m1, m2, m3, m4, m5, m6⟩, ?_, ?_, rfl, rfl, rfl, rfl⟩
  · have hmap : (splitChar '\n' l.data).map String.mk = [l] := by
      rw [splitChar_no_sep '\n' l.data hnl]
      rfl
    show mdLoopAux ((splitChar '\n' l.data).map String.mk).length
        ((splitChar '\n' l.data).map String.mk) = _
    rw [hmap]
    show mdLoopAux 1 [l] = _
    rw [mdLoop_single l hblank hfence, hclassify]
  · refine ⟨String.mk (c :: cs.takeWhile (fun x => !(isSpecialChar x))),
      scanAux cs.length (cs.dropWhile (fun x => !(isSpecialChar x))),
      parseInline_ws_head l c cs hd f7, ?_⟩
    rw [hd, List.takeWhile_cons, if_pos (by simp [f7])]

theorem c10_indentation_sensitivity_witness :
    ((" x" : String).data = ' ' :: ['x'] ∧ (' ').isWhitespace = true
        ∧ '\n' ∉ (" x" : String).data
        ∧ strTrim " x" ≠ "" ∧ strStartsWith (strTrim " x") "```" = false
        ∧ dividerTest " x" = false ∧ bookmarkMatch " x" = none ∧ embedMatch " x" = none)
      ∧ markdownToBlocks " x"
          = [Block.mk "" false (.paragraph (parseInlineMarkdown " x")) .nil] :=
  ⟨⟨by decide, by decide, by decide, by decide, by decide, by decide, by decide, by decide⟩,
    (c10_indentation_sensitivity " x" ' ' ['x'] (by decide) (by decide) (by decide) (by decide)
      (by decide) (by decide) (by decide) (by decide)).2.1⟩
